import Mathlib

/-!
Verification of the address-resolution pipeline of the reseller-map
repository.  The definitions below are shallow embeddings of the
TypeScript source:

* `normalizeAddress`, `looksLikeUS`, `hasCountryWord`, `tryGeocode`,
  `geocodeAddress` embed `lib/geocode.ts` (the cache-backed pipeline,
  source file `part_003`);
* `geocodeAddressMem` embeds the two-provider variant with the
  in-process memory cache (source file `part_000`);
* `uniqList`, `runBatch`, `handler` embed the batch API handler
  (source file `part_004`).

Network calls are modelled by oracles mapping a query string to the
outcome of the corresponding `fetch`; thrown JS exceptions are modelled
with `Except`; JS values handled by the provider clients are modelled
by `JsVal` (finite rational, NaN, infinities, or a non-numeric value)
so that `typeof x === 'number'` and `Number.isFinite(x)` are
expressible.
-/

/-- Whitespace characters, the ASCII core (plus NBSP) of the JS `\s`
class used by `.replace(/\s{2,}/g, ...)` and `.trim()`. -/
def isWs (c : Char) : Bool :=
  c = ' ' || c = '\t' || c = '\n' || c = '\r' || c = '\x0b' || c = '\x0c' || c = ' '

/-- Characters matched by the JS class `[\r\n]`. -/
def isNl (c : Char) : Bool :=
  c = '\r' || c = '\n'

/-- Characters matched by the JS class `["']`. -/
def isQuote (c : Char) : Bool :=
  c = '"' || c = '\''

/-- Whether the first character of the list satisfies `p` (false for the
empty list). -/
def headIs (p : Char → Bool) : List Char → Bool
  | [] => false
  | c :: _ => p c

/-- Whether the last character of the list satisfies `p` (false for the
empty list). -/
def lastIs (p : Char → Bool) (l : List Char) : Bool :=
  headIs p l.reverse

/-- `leadsWith n h` is true when `n` is an initial segment of `h`. -/
def leadsWith : List Char → List Char → Bool
  | [], _ => true
  | _ :: _, [] => false
  | c :: cs, d :: ds => c = d && leadsWith cs ds

/-- `occursIn n h` is true when `n` occurs contiguously inside `h`;
this is JS `String.prototype.includes` on the underlying characters. -/
def occursIn (n : List Char) : List Char → Bool
  | [] => leadsWith n []
  | d :: ds => leadsWith n (d :: ds) || occursIn n ds

/-- Embeds `.replace(/[\r\n]+/g, ', ')`: every maximal run of CR/LF
characters becomes a comma followed by a space. -/
def replCRLF : List Char → List Char
  | [] => []
  | [c] => if isNl c then [',', ' '] else [c]
  | c :: d :: rest =>
    if isNl c then
      if isNl d then replCRLF (d :: rest)
      else ',' :: ' ' :: replCRLF (d :: rest)
    else c :: replCRLF (d :: rest)

/-- Worker for `collapseWs`.  The state holds a pending whitespace run:
its first character and whether the run already has length at least
two (in which case the whole run prints as a single space, mirroring
`.replace(/\s{2,}/g, ' ')`, which leaves length-one runs untouched). -/
def collapseAux : Option (Char × Bool) → List Char → List Char
  | none, [] => []
  | some (w, more), [] => [if more then ' ' else w]
  | none, c :: t =>
    if isWs c then collapseAux (some (c, false)) t else c :: collapseAux none t
  | some (w, more), c :: t =>
    if isWs c then collapseAux (some (w, true)) t
    else (if more then ' ' else w) :: c :: collapseAux none t

/-- Embeds `.replace(/\s{2,}/g, ' ')`. -/
def collapseWs (l : List Char) : List Char :=
  collapseAux none l

/-- Embeds `.replace(/^["']+|["']+$/g, '')`: strips one leading and one
trailing run of quote characters. -/
def stripQuotes (l : List Char) : List Char :=
  ((l.dropWhile isQuote).reverse.dropWhile isQuote).reverse

/-- Embeds `.trim()`. -/
def trimWs (l : List Char) : List Char :=
  ((l.dropWhile isWs).reverse.dropWhile isWs).reverse

/-- The character pipeline of `normalizeAddress` in `part_003`. -/
def normalizeList (l : List Char) : List Char :=
  trimWs (stripQuotes (collapseWs (replCRLF l)))

/-- Embeds `normalizeAddress` from `part_003`:
newline runs become `, `, whitespace runs of length at least two become
one space, leading/trailing quote runs are stripped, and the outside is
trimmed. -/
def normalizeAddress (s : String) : String :=
  String.mk (normalizeList s.data)

/-- Embeds JS `String.prototype.trim` (used by `part_000` and by the
batch handler in `part_004`). -/
def trimString (s : String) : String :=
  String.mk (trimWs s.data)

/-- The `US_STATES` set from `part_003`. -/
def usStates : List String :=
  ["AL","AK","AZ","AR","CA","CO","CT","DE","FL","GA","HI","ID","IL","IN","IA","KS","KY","LA","ME","MD",
   "MA","MI","MN","MS","MO","MT","NE","NV","NH","NJ","NM","NY","NC","ND","OH","OK","OR","PA","RI","SC",
   "SD","TN","TX","UT","VT","VA","WA","WV","WI","WY","DC"]

/-- The country-hint list from `hasCountryWord` in `part_003`. -/
def countryHints : List String :=
  ["France","USA","United States","United Kingdom","UK","China","Taiwan","Korea","Republic of Korea",
   "Japan","Singapore","Lebanon","Australia","Netherlands","Holland","Belgium","Canada","Italia","Italy"]

/-- Embeds `hasCountryWord` from `part_003`: case-insensitive substring
test against the fixed hint list. -/
def hasCountryWord (s : String) : Bool :=
  countryHints.any (fun h => occursIn (h.data.map Char.toLower) (s.data.map Char.toLower))

/-- Uppercase ASCII letter, the JS class `[A-Z]`. -/
def isUpperAZ (c : Char) : Bool :=
  'A' ≤ c && c ≤ 'Z'

/-- After the optional postal-code part has been consumed from a
reversed address, checks for the two uppercase letters preceded by
`,\s*`; returns the letters in source order. -/
def checkStateAt : List Char → Option (Char × Char)
  | c2 :: c1 :: rest =>
    if isUpperAZ c1 && isUpperAZ c2 then
      match rest.dropWhile isWs with
      | ',' :: _ => some (c1, c2)
      | _ => none
    else none
  | _ => none

/-- Requires at least one whitespace character (the regex `\s+` between
the state code and the zip code) and then the state letters. -/
def afterZip : List Char → Option (Char × Char)
  | [] => none
  | c :: rest =>
    if isWs c then checkStateAt ((c :: rest).dropWhile isWs) else none

/-- End-anchored parse of the regex
`,\s*([A-Z]{2})(\s+\d{5}(-\d{4})?)?$` over the reversed character list;
returns the captured state letters when the regex matches. -/
def usParse (r : List Char) : Option (Char × Char) :=
  let ds := r.takeWhile Char.isDigit
  let rest := r.dropWhile Char.isDigit
  if ds.length = 0 then checkStateAt r
  else if ds.length = 4 then
    match rest with
    | '-' :: rest2 =>
      if (rest2.takeWhile Char.isDigit).length = 5 then
        afterZip (rest2.dropWhile Char.isDigit)
      else none
    | _ => none
  else if ds.length = 5 then afterZip rest
  else none

/-- Embeds `looksLikeUS` from `part_003`: the address ends with
`, XX` (optionally followed by a 5 or 5+4 digit zip code) where `XX` is
in `US_STATES`. -/
def looksLikeUS (s : String) : Bool :=
  match usParse s.data.reverse with
  | some (c1, c2) => usStates.contains (String.mk [c1, c2])
  | none => false

/-- A JS value as the provider clients handle them: a finite number,
NaN, one of the infinities, a string, or `undefined`.
`typeof x === 'number'` is `isNumber`; `Number.isFinite(x)` is
`isFinite`.  Values coming out of `JSON.parse` are never NaN (numeric
overflow such as `1e999` parses to ±Infinity); NaN arises only from
`parseFloat` on a non-numeric string in the Nominatim client. -/
inductive JsVal where
  | fin (x : ℚ)
  | nan
  | inf
  | ninf
  | str (s : String)
  | undef
deriving DecidableEq

/-- JS `typeof x === 'number'` (true for NaN and the infinities). -/
def JsVal.isNumber : JsVal → Bool
  | .fin _ => true
  | .nan => true
  | .inf => true
  | .ninf => true
  | _ => false

/-- JS `Number.isFinite`. -/
def JsVal.isFinite : JsVal → Bool
  | .fin _ => true
  | _ => false

/-- A coordinate pair as the pipeline stores it: the `lat`/`lng` fields
taken verbatim from a provider response. -/
structure Coords where
  lat : JsVal
  lng : JsVal
deriving DecidableEq

/-- Outcome of one `fetch` against the key-authenticated provider:
a thrown transport exception, a non-success HTTP status, or a parsed
body whose first result's geometry is `geom` (`none` when the results
array is empty).  Since the body comes from `r.json()`, a numeric
geometry field is a finite number or ±Infinity (JSON numeric overflow),
never NaN; a `JsVal.nan` field here is unreachable in the real
system. -/
inductive FetchOutcome where
  | throwEx
  | httpError
  | ok (geom : Option Coords)
deriving DecidableEq

/-- Errors that escape `tryGeocode` in `part_003` as JS exceptions:
the missing-credential throw, or an uncaught `fetch` rejection. -/
inductive GeoError where
  | configError
  | transportError
deriving DecidableEq

/-- Embeds `tryGeocode` from `part_003`, instrumented with the list of
queries for which a `fetch` was actually issued.  The credential check
`if (!key) throw` runs before any network traffic; a non-success HTTP
status returns `null`; a transport exception propagates. -/
def tryGeocode (key : String) (provider : String → FetchOutcome) (q : String) :
    Except GeoError (Option Coords) × List String :=
  if key = "" then (Except.error GeoError.configError, [])
  else
    match provider q with
    | .throwEx => (Except.error GeoError.transportError, [q])
    | .httpError => (Except.ok none, [q])
    | .ok g => (Except.ok g, [q])

/-- The fixed fallback-country list from `part_003`. -/
def fallbackCountries : List String :=
  ["France", "United Kingdom", "Singapore", "Australia", "China", "Japan", "Korea", "Netherlands"]

/-- Embeds the `for (const c of fallbacks)` loop of `geocodeAddress`
in `part_003`: try each country suffix in order, stop at the first hit;
an exception aborts the loop. -/
def fallbackSweep (key : String) (provider : String → FetchOutcome) (cleaned : String) :
    List String → Except GeoError (Option Coords) × List String
  | [] => (Except.ok none, [])
  | c :: rest =>
    match tryGeocode key provider (cleaned ++ ", " ++ c) with
    | (Except.error e, a) => (Except.error e, a)
    | (Except.ok (some hit), a) => (Except.ok (some hit), a)
    | (Except.ok none, a) =>
      match fallbackSweep key provider cleaned rest with
      | (r2, a2) => (r2, a ++ a2)

/-- The attempt sequence of `geocodeAddress` in `part_003` after the
cache miss: bare query, then the `", USA"` retry when the bare query
returned null, no country word is present and the address looks US,
then the fallback-country sweep when still unresolved and no country
word is present. -/
def geocodeCore (key : String) (provider : String → FetchOutcome) (cleaned : String) :
    Except GeoError (Option Coords) × List String :=
  match tryGeocode key provider cleaned with
  | (Except.error e, a1) => (Except.error e, a1)
  | (Except.ok hit1, a1) =>
    match (if hit1.isNone && !hasCountryWord cleaned && looksLikeUS cleaned then
             tryGeocode key provider (cleaned ++ ", USA")
           else (Except.ok hit1, [])) with
    | (Except.error e, a2) => (Except.error e, a1 ++ a2)
    | (Except.ok hit2, a2) =>
      match (if hit2.isNone && !hasCountryWord cleaned then
               fallbackSweep key provider cleaned fallbackCountries
             else (Except.ok hit2, [])) with
      | (r3, a3) => (r3, a1 ++ a2 ++ a3)

/-- Functional upsert, embedding `setCoords` / `REPLACE INTO` keyed by
the normalized address. -/
def cacheUpdate (cache : String → Option Coords) (k : String) (v : Coords) :
    String → Option Coords :=
  fun s => if s = k then some v else cache s

/-- Result of one resolution in the `part_003` pipeline: the value the
caller receives (or the exception that reached it), the provider
queries actually fetched, and the cache after the call. -/
structure GeoResult where
  res : Except GeoError (Option Coords)
  fetches : List String
  cache : String → Option Coords

/-- Embeds `geocodeAddress` from `part_003`: normalize, return null on
empty, return the cached coordinates on a cache hit, otherwise run the
attempt sequence and write the first success back to the cache. -/
def geocodeAddress (key : String) (cache : String → Option Coords)
    (provider : String → FetchOutcome) (address : String) : GeoResult :=
  let cleaned := normalizeAddress address
  if cleaned = "" then ⟨Except.ok none, [], cache⟩
  else
    match cache cleaned with
    | some c => ⟨Except.ok (some c), [], cache⟩
    | none =>
      match geocodeCore key provider cleaned with
      | (Except.error e, a) => ⟨Except.error e, a, cache⟩
      | (Except.ok none, a) => ⟨Except.ok none, a, cache⟩
      | (Except.ok (some h), a) => ⟨Except.ok (some h), a, cacheUpdate cache cleaned h⟩

/-- True when a provider call completed and returned `null` (HTTP error
logged and swallowed, or an empty results array): the outcomes the
orchestrator treats as a failed attempt. -/
def returnedNull : FetchOutcome → Bool
  | .httpError => true
  | .ok none => true
  | _ => false

/-- Replaces every non-success HTTP status in a provider's behaviour by
a successful response with no results. -/
def sanitizeHttp (p : String → FetchOutcome) : String → FetchOutcome :=
  fun q =>
    match p q with
    | .httpError => .ok none
    | o => o

/-- Whether an `Except` is a success. -/
def exceptOk : Except GeoError (Option Coords) → Bool
  | .ok _ => true
  | .error _ => false

/-- Outcome of one `fetch` against the keyless secondary provider
(Nominatim) in `part_000`: the parsed first array element carries the
`parseFloat` results of its string-typed coordinates. -/
inductive NomOutcome where
  | throwEx
  | httpError
  | ok (item : Option Coords)
deriving DecidableEq

/-- The OpenCage step of `part_000`: skipped entirely when the key is
empty; exceptions and HTTP errors are swallowed; a first geometry is
accepted when both fields have JS type number (`typeof === 'number'`,
which ±Infinity passes). -/
def ocStep (key : String) (oc : String → FetchOutcome) (addr : String) : Option Coords :=
  if key = "" then none
  else
    match oc addr with
    | .throwEx => none
    | .httpError => none
    | .ok none => none
    | .ok (some g) => if g.lat.isNumber && g.lng.isNumber then some g else none

/-- The Nominatim step of `part_000`: exceptions and HTTP errors are
swallowed; the parsed coordinates are accepted only when both are
finite (`Number.isFinite`). -/
def nomStep (nom : String → NomOutcome) (addr : String) : Option Coords :=
  match nom addr with
  | .throwEx => none
  | .httpError => none
  | .ok none => none
  | .ok (some it) => if it.lat.isFinite && it.lng.isFinite then some it else none

/-- Embeds `geocodeAddress` from `part_000` (OpenCage, then Nominatim,
with the in-process memory cache): returns the resolved coordinates and
the memory cache after the call. -/
def geocodeAddressMem (key : String) (mem : String → Option Coords)
    (oc : String → FetchOutcome) (nom : String → NomOutcome) (address : String) :
    Option Coords × (String → Option Coords) :=
  let addr := trimString address
  if addr = "" then (none, mem)
  else
    match mem addr with
    | some c => (some c, mem)
    | none =>
      match ocStep key oc addr with
      | some out => (some out, cacheUpdate mem addr out)
      | none =>
        match nomStep nom addr with
        | some out => (some out, cacheUpdate mem addr out)
        | none => (none, mem)

/-- Worker for `dedupKeepFirst`: JS `new Set` iteration order keeps the
first occurrence of each element. -/
def dedupAux (seen : List String) : List String → List String
  | [] => []
  | a :: rest =>
    if seen.contains a then dedupAux seen rest
    else a :: dedupAux (a :: seen) rest

/-- Embeds `Array.from(new Set(...))`. -/
def dedupKeepFirst (l : List String) : List String :=
  dedupAux [] l

/-- Embeds the input preparation of the batch handler in `part_004`:
trim every entry, drop empties, deduplicate keeping first occurrences,
and keep only the first 400 (`.slice(0, 400)`). -/
def uniqList (batch : List String) : List String :=
  (dedupKeepFirst ((batch.map trimString).filter (fun a => a != ""))).take 400

/-- Result of the batch loop: the response entries (address plus
coordinates for every resolved address), the cache after the batch, and
per-address logs of the provider queries fetched. -/
structure BatchResult where
  out : List (String × Coords)
  cache : String → Option Coords
  logs : List (String × List String)

/-- Embeds the sequential loop of the batch handler in `part_004`:
each address is resolved through the `part_003` pipeline, threading the
durable cache; failures (null results and thrown exceptions alike) are
skipped and the loop continues. -/
def runBatch (key : String) (provider : String → FetchOutcome) :
    List String → (String → Option Coords) → BatchResult
  | [], cache => ⟨[], cache, []⟩
  | a :: rest, cache =>
    match geocodeAddress key cache provider a with
    | ⟨r, fetches, cache'⟩ =>
      match runBatch key provider rest cache' with
      | ⟨out, cacheF, logs⟩ =>
        match r with
        | Except.ok (some g) => ⟨(a, g) :: out, cacheF, (a, fetches) :: logs⟩
        | _ => ⟨out, cacheF, (a, fetches) :: logs⟩

/-- Embeds the batch handler of `part_004` on the authorized POST path:
it always answers HTTP 200 with the resolved entries. -/
def handler (key : String) (provider : String → FetchOutcome)
    (cache : String → Option Coords) (batch : List String) :
    Nat × List (String × Coords) :=
  (200, (runBatch key provider (uniqList batch) cache).out)

/-- Adjacent characters are not both whitespace: the shape that
`.replace(/\s{2,}/g, ' ')` establishes and that makes it a no-op. -/
def wsChain (a b : Char) : Prop :=
  isWs a = false ∨ isWs b = false

theorem geocodeAddress_hit (key : String) (cache : String → Option Coords)
    (provider : String → FetchOutcome) (a : String) (c : Coords)
    (hne : normalizeAddress a ≠ "") (hhit : cache (normalizeAddress a) = some c) :
    geocodeAddress key cache provider a = ⟨Except.ok (some c), [], cache⟩ := by
  unfold geocodeAddress
  simp only [if_neg hne, hhit]

theorem tryGeocode_nokey (provider : String → FetchOutcome) (q : String) :
    tryGeocode "" provider q = (Except.error GeoError.configError, []) := by
  simp [tryGeocode]

theorem geocodeCore_nokey (provider : String → FetchOutcome) (cleaned : String) :
    geocodeCore "" provider cleaned = (Except.error GeoError.configError, []) := by
  simp [geocodeCore, tryGeocode_nokey]

theorem geocodeAddress_empty (key : String) (cache : String → Option Coords)
    (provider : String → FetchOutcome) (a : String) (h : normalizeAddress a = "") :
    geocodeAddress key cache provider a = ⟨Except.ok none, [], cache⟩ := by
  unfold geocodeAddress
  simp only [h, if_pos]

theorem geocodeAddress_miss_err (key : String) (cache : String → Option Coords)
    (provider : String → FetchOutcome) (a : String) (e : GeoError) (l : List String)
    (hne : normalizeAddress a ≠ "") (hmiss : cache (normalizeAddress a) = none)
    (hcore : geocodeCore key provider (normalizeAddress a) = (Except.error e, l)) :
    geocodeAddress key cache provider a = ⟨Except.error e, l, cache⟩ := by
  unfold geocodeAddress
  simp only [if_neg hne, hmiss, hcore]

theorem geocodeAddress_miss_none (key : String) (cache : String → Option Coords)
    (provider : String → FetchOutcome) (a : String) (l : List String)
    (hne : normalizeAddress a ≠ "") (hmiss : cache (normalizeAddress a) = none)
    (hcore : geocodeCore key provider (normalizeAddress a) = (Except.ok none, l)) :
    geocodeAddress key cache provider a = ⟨Except.ok none, l, cache⟩ := by
  unfold geocodeAddress
  simp only [if_neg hne, hmiss, hcore]

theorem geocodeAddress_miss_some (key : String) (cache : String → Option Coords)
    (provider : String → FetchOutcome) (a : String) (h : Coords) (l : List String)
    (hne : normalizeAddress a ≠ "") (hmiss : cache (normalizeAddress a) = none)
    (hcore : geocodeCore key provider (normalizeAddress a) = (Except.ok (some h), l)) :
    geocodeAddress key cache provider a
      = ⟨Except.ok (some h), l, cacheUpdate cache (normalizeAddress a) h⟩ := by
  unfold geocodeAddress
  simp only [if_neg hne, hmiss, hcore]

theorem tryGeocode_null (key : String) (provider : String → FetchOutcome) (q : String)
    (hk : key ≠ "") (h : returnedNull (provider q) = true) :
    tryGeocode key provider q = (Except.ok none, [q]) := by
  unfold tryGeocode
  rw [if_neg hk]
  cases hp : provider q with
  | throwEx => rw [hp] at h; simp [returnedNull] at h
  | httpError => rfl
  | ok g =>
    cases g with
    | none => rfl
    | some c => rw [hp] at h; simp [returnedNull] at h

theorem fallbackSweep_allnull (key : String) (provider : String → FetchOutcome)
    (cleaned : String) (l : List String) (hk : key ≠ "")
    (hnull : ∀ q, returnedNull (provider q) = true) :
    fallbackSweep key provider cleaned l
      = (Except.ok none, l.map (fun c => cleaned ++ ", " ++ c)) := by
  induction l with
  | nil => rfl
  | cons c rest ih =>
    unfold fallbackSweep
    rw [tryGeocode_null key provider _ hk (hnull _), ih]
    rfl

theorem geocodeCore_allnull (key : String) (provider : String → FetchOutcome)
    (cleaned : String) (hk : key ≠ "")
    (hnull : ∀ q, returnedNull (provider q) = true) :
    (geocodeCore key provider cleaned).1 = Except.ok none := by
  unfold geocodeCore
  rw [tryGeocode_null key provider _ hk (hnull _)]
  by_cases h1 : (!hasCountryWord cleaned && looksLikeUS cleaned) = true
  · simp only [Option.isNone_none, Bool.true_and, h1, if_pos,
      tryGeocode_null key provider _ hk (hnull _)]
    have h2 : (!hasCountryWord cleaned) = true := by
      cases hcw : hasCountryWord cleaned <;> rw [hcw] at h1 <;> simp_all
    simp only [Option.isNone_none, Bool.true_and, h2, if_pos,
      fallbackSweep_allnull key provider cleaned _ hk hnull]
  · simp only [Option.isNone_none, Bool.true_and, if_neg h1]
    by_cases h2 : (!hasCountryWord cleaned) = true
    · simp only [Option.isNone_none, Bool.true_and, h2, if_pos,
        fallbackSweep_allnull key provider cleaned _ hk hnull]
    · simp only [Option.isNone_none, Bool.true_and, if_neg h2]

/-- C3: when the normalized form of an address is present in the cache
(and the cache, as every cache the pipeline itself builds, has no entry
for the empty key), `geocodeAddress` returns exactly the cached
coordinates, fetches nothing from any provider, and leaves the cache
untouched. -/
theorem c3_cache_hit_no_provider (key : String) (cache : String → Option Coords)
    (provider : String → FetchOutcome) (a : String) (c : Coords)
    (hwf : cache "" = none) (hhit : cache (normalizeAddress a) = some c) :
    geocodeAddress key cache provider a = ⟨Except.ok (some c), [], cache⟩ := by
  have hne : normalizeAddress a ≠ "" := by
    intro h
    rw [h, hwf] at hhit
    cases hhit
  exact geocodeAddress_hit key cache provider a c hne hhit

/-- Witness for C3 at a concrete cached address. -/
theorem c3_cache_hit_no_provider_witness :
    geocodeAddress "k" (fun s => if s = "Paris" then some ⟨JsVal.fin 1, JsVal.fin 2⟩ else none)
      (fun _ => FetchOutcome.ok none) "Paris"
      = ⟨Except.ok (some ⟨JsVal.fin 1, JsVal.fin 2⟩), [],
         fun s => if s = "Paris" then some ⟨JsVal.fin 1, JsVal.fin 2⟩ else none⟩ :=
  c3_cache_hit_no_provider "k" _ _ "Paris" ⟨JsVal.fin 1, JsVal.fin 2⟩ (by decide) (by decide)

/-- C5: on a cache miss (with the credential configured), a successful
resolution writes exactly its result into the cache under the
normalized address; a null result, a thrown exception, and in
particular a run in which every provider call fails all leave the cache
unchanged, and full exhaustion yields the null result. -/
theorem c5_cache_write (key : String) (cache : String → Option Coords)
    (provider : String → FetchOutcome) (a : String)
    (hkey : key ≠ "") (hmiss : cache (normalizeAddress a) = none) :
    (∀ c, (geocodeAddress key cache provider a).res = Except.ok (some c) →
        (geocodeAddress key cache provider a).cache = cacheUpdate cache (normalizeAddress a) c) ∧
    ((geocodeAddress key cache provider a).res = Except.ok none →
        (geocodeAddress key cache provider a).cache = cache) ∧
    (∀ e, (geocodeAddress key cache provider a).res = Except.error e →
        (geocodeAddress key cache provider a).cache = cache) ∧
    ((∀ q, returnedNull (provider q) = true) →
        (geocodeAddress key cache provider a).res = Except.ok none ∧
        (geocodeAddress key cache provider a).cache = cache) := by
  by_cases hne : normalizeAddress a = ""
  · rw [geocodeAddress_empty key cache provider a hne]
    exact ⟨by simp, by simp, by simp, fun _ => ⟨rfl, rfl⟩⟩
  · rcases hcore : geocodeCore key provider (normalizeAddress a) with ⟨r, l⟩
    match r, hcore with
    | Except.error e, hcore =>
      rw [geocodeAddress_miss_err key cache provider a e l hne hmiss hcore]
      refine ⟨by simp, by simp, by simp, fun hnull => ?_⟩
      have hall := geocodeCore_allnull key provider (normalizeAddress a) hkey hnull
      rw [hcore] at hall
      cases hall
    | Except.ok none, hcore =>
      rw [geocodeAddress_miss_none key cache provider a l hne hmiss hcore]
      exact ⟨by simp, fun _ => rfl, by simp, fun _ => ⟨rfl, rfl⟩⟩
    | Except.ok (some h), hcore =>
      rw [geocodeAddress_miss_some key cache provider a h l hne hmiss hcore]
      refine ⟨?_, by simp, by simp, fun hnull => ?_⟩
      · intro c hc
        simp only at hc
        cases hc
        rfl
      · have hall := geocodeCore_allnull key provider (normalizeAddress a) hkey hnull
        rw [hcore] at hall
        cases hall

/-- Witness for C5: with every provider call failing, the result is
null and the cache is returned unchanged. -/
theorem c5_cache_write_witness :
    (geocodeAddress "k" (fun _ => none) (fun _ => FetchOutcome.ok none) "Paris").res
      = Except.ok none ∧
    (geocodeAddress "k" (fun _ => none) (fun _ => FetchOutcome.ok none) "Paris").cache
      = (fun _ => none) :=
  (c5_cache_write "k" (fun _ => none) (fun _ => FetchOutcome.ok none) "Paris"
    (by decide) rfl).2.2.2 (fun _ => rfl)

/-- C7, amended part: in the `part_003` pipeline a missing credential
makes any resolution that reaches the provider step fail with the
configuration error, with zero fetches issued and the cache
untouched. -/
theorem c7_missing_key_fatal (cache : String → Option Coords)
    (provider : String → FetchOutcome) (a : String)
    (hne : normalizeAddress a ≠ "") (hmiss : cache (normalizeAddress a) = none) :
    geocodeAddress "" cache provider a = ⟨Except.error GeoError.configError, [], cache⟩ :=
  geocodeAddress_miss_err "" cache provider a GeoError.configError [] hne hmiss
    (geocodeCore_nokey provider (normalizeAddress a))

/-- Witness for C7 at a concrete address. -/
theorem c7_missing_key_fatal_witness :
    geocodeAddress "" (fun _ => none)
      (fun _ => FetchOutcome.ok (some ⟨JsVal.fin 1, JsVal.fin 2⟩)) "Paris"
      = ⟨Except.error GeoError.configError, [], fun _ => none⟩ :=
  c7_missing_key_fatal (fun _ => none) _ "Paris" (by decide) rfl

/-- Counterexample to C7 as stated: in the two-provider variant
(`part_000`) an absent credential is silently downgraded — the
resolution proceeds to the secondary provider, succeeds, and writes the
result to the cache, instead of failing with a configuration error
before any network call. -/
theorem c7_counterexample :
    (geocodeAddressMem "" (fun _ => none) (fun _ => FetchOutcome.ok none)
        (fun _ => NomOutcome.ok (some ⟨JsVal.fin 1, JsVal.fin 2⟩)) "Paris").1
      = some ⟨JsVal.fin 1, JsVal.fin 2⟩ ∧
    (geocodeAddressMem "" (fun _ => none) (fun _ => FetchOutcome.ok none)
        (fun _ => NomOutcome.ok (some ⟨JsVal.fin 1, JsVal.fin 2⟩)) "Paris").2 "Paris"
      = some ⟨JsVal.fin 1, JsVal.fin 2⟩ :=
  ⟨rfl, by decide⟩

/-- Counterexample to C6 as stated: a transport exception on the bare
query propagates out of the `part_003` orchestrator as an error — the
caller does not receive a plain null result. -/
theorem c6_counterexample :
    (geocodeAddress "k" (fun _ => none) (fun _ => FetchOutcome.throwEx) "Paris").res
      = Except.error GeoError.transportError ∧
    exceptOk (geocodeAddress "k" (fun _ => none) (fun _ => FetchOutcome.throwEx) "Paris").res
      = false :=
  ⟨rfl, rfl⟩

/-- Counterexample to C8 as stated: `tryGeocode` in `part_003` performs
no numeric check, so a geometry whose latitude is Infinity — which a
provider body can carry, since JSON numeric overflow such as `1e999`
parses to Infinity — is both returned to the caller and written to the
cache, yet `Number.isFinite` rejects it. -/
theorem c8_counterexample :
    (geocodeAddress "k" (fun _ => none)
        (fun _ => FetchOutcome.ok (some ⟨JsVal.inf, JsVal.fin 0⟩)) "Paris").res
      = Except.ok (some ⟨JsVal.inf, JsVal.fin 0⟩) ∧
    (geocodeAddress "k" (fun _ => none)
        (fun _ => FetchOutcome.ok (some ⟨JsVal.inf, JsVal.fin 0⟩)) "Paris").cache "Paris"
      = some ⟨JsVal.inf, JsVal.fin 0⟩ ∧
    JsVal.isFinite JsVal.inf = false :=
  ⟨rfl, by decide, rfl⟩

/-- Counterexample to C2 as stated: normalization is not idempotent —
trimming can expose a quote character that only a second application
strips. -/
theorem c2_counterexample :
    normalizeAddress (normalizeAddress " \"a") ≠ normalizeAddress " \"a" := by
  decide

/-- Counterexample to C1 as stated: when the bare query fails, no
country word is present, but the `", USA"` retry succeeds, the fallback
countries are never attempted, contrary to the claim's premise covering
every bare-query failure without a country word. -/
theorem c1_counterexample :
    hasCountryWord (normalizeAddress "1 Main St, Boston, MA") = false ∧
    normalizeAddress "1 Main St, Boston, MA" = "1 Main St, Boston, MA" ∧
    (geocodeAddress "k" (fun _ => none)
        (fun q => if q = "1 Main St, Boston, MA, USA" then
                    FetchOutcome.ok (some ⟨JsVal.fin 42, JsVal.fin 7⟩)
                  else FetchOutcome.ok none)
        "1 Main St, Boston, MA").fetches
      = ["1 Main St, Boston, MA", "1 Main St, Boston, MA, USA"] ∧
    ¬ ("1 Main St, Boston, MA, France" ∈
        (geocodeAddress "k" (fun _ => none)
          (fun q => if q = "1 Main St, Boston, MA, USA" then
                      FetchOutcome.ok (some ⟨JsVal.fin 42, JsVal.fin 7⟩)
                    else FetchOutcome.ok none)
          "1 Main St, Boston, MA").fetches) ∧
    (geocodeAddress "k" (fun _ => none)
        (fun q => if q = "1 Main St, Boston, MA, USA" then
                    FetchOutcome.ok (some ⟨JsVal.fin 42, JsVal.fin 7⟩)
                  else FetchOutcome.ok none)
        "1 Main St, Boston, MA").res
      = Except.ok (some ⟨JsVal.fin 42, JsVal.fin 7⟩) :=
  ⟨by decide, by decide, by decide, by decide, rfl⟩

/-- Counterexample to C9 as stated: two raw addresses that trim
differently but normalize to the same key are both resolved in full —
the provider-querying pipeline (bare query plus the eight fallback
countries) runs twice for the single normalized address. -/
theorem c9_counterexample :
    uniqList ["x  y", "x y"] = ["x  y", "x y"] ∧
    normalizeAddress "x  y" = normalizeAddress "x y" ∧
    (runBatch "k" (fun _ => FetchOutcome.ok none) (uniqList ["x  y", "x y"])
        (fun _ => none)).logs.map Prod.snd
      = ["x y" :: fallbackCountries.map (fun s => "x y" ++ ", " ++ s),
         "x y" :: fallbackCountries.map (fun s => "x y" ++ ", " ++ s)] := by
  decide

theorem replCRLF_no_nl : ∀ (l : List Char), ∀ c ∈ replCRLF l, isNl c = false := by
  intro l
  induction l using replCRLF.induct with
  | case1 => simp [replCRLF]
  | case2 c h =>
    simp only [replCRLF, if_pos h]
    decide
  | case3 c h =>
    simp only [replCRLF, if_neg h, List.mem_singleton]
    intro x hx
    subst hx
    simpa using h
  | case4 c d rest h1 h2 ih =>
    simpa only [replCRLF, if_pos h1, if_pos h2] using ih
  | case5 c d rest h1 h2 ih =>
    intro x hx
    simp only [replCRLF, if_pos h1, if_neg h2, List.mem_cons] at hx
    rcases hx with rfl | rfl | hx
    · decide
    · decide
    · exact ih x hx
  | case6 c d rest h1 ih =>
    intro x hx
    simp only [replCRLF, if_neg h1, List.mem_cons] at hx
    rcases hx with rfl | hx
    · simpa using h1
    · exact ih x hx

theorem replCRLF_id : ∀ (l : List Char), (∀ c ∈ l, isNl c = false) → replCRLF l = l := by
  intro l
  induction l using replCRLF.induct with
  | case1 => intro; rfl
  | case2 c h =>
    intro hall
    have := hall c (by simp)
    rw [h] at this
    cases this
  | case3 c h =>
    intro _
    simp [replCRLF, h]
  | case4 c d rest h1 h2 ih =>
    intro hall
    have := hall c (by simp)
    rw [h1] at this
    cases this
  | case5 c d rest h1 h2 ih =>
    intro hall
    have := hall c (by simp)
    rw [h1] at this
    cases this
  | case6 c d rest h1 ih =>
    intro hall
    simp only [replCRLF, if_neg h1]
    rw [ih (fun x hx => hall x (List.mem_cons_of_mem c hx))]

theorem collapseAux_mem : ∀ (l : List Char) (st : Option (Char × Bool)) (c : Char),
    c ∈ collapseAux st l →
    c ∈ l ∨ c = ' ' ∨ ∃ w m, st = some (w, m) ∧ c = w := by
  intro l
  induction l with
  | nil =>
    intro st c hc
    match st with
    | none => cases hc
    | some (w, more) =>
      simp only [collapseAux, List.mem_singleton] at hc
      cases more with
      | true => exact Or.inr (Or.inl hc)
      | false => exact Or.inr (Or.inr ⟨w, false, rfl, hc⟩)
  | cons a t ih =>
    intro st c hc
    match st with
    | none =>
      by_cases ha : isWs a = true
      · simp only [collapseAux, if_pos ha] at hc
        rcases ih _ c hc with h | h | ⟨w, m, hw, rfl⟩
        · exact Or.inl (List.mem_cons_of_mem a h)
        · exact Or.inr (Or.inl h)
        · cases hw
          exact Or.inl (List.mem_cons_self a t)
      · simp only [collapseAux, if_neg ha, List.mem_cons] at hc
        rcases hc with rfl | hc
        · exact Or.inl (List.mem_cons_self c t)
        · rcases ih _ c hc with h | h | ⟨w, m, hw, rfl⟩
          · exact Or.inl (List.mem_cons_of_mem a h)
          · exact Or.inr (Or.inl h)
          · cases hw
    | some (w, more) =>
      by_cases ha : isWs a = true
      · simp only [collapseAux, if_pos ha] at hc
        rcases ih _ c hc with h | h | ⟨w2, m2, hw, rfl⟩
        · exact Or.inl (List.mem_cons_of_mem a h)
        · exact Or.inr (Or.inl h)
        · cases hw
          exact Or.inr (Or.inr ⟨_, more, rfl, rfl⟩)
      · simp only [collapseAux, if_neg ha, List.mem_cons] at hc
        rcases hc with rfl | rfl | hc
        · cases more with
          | true => exact Or.inr (Or.inl rfl)
          | false => exact Or.inr (Or.inr ⟨w, false, rfl, rfl⟩)
        · exact Or.inl (List.mem_cons_self c t)
        · rcases ih _ c hc with h | h | ⟨w', m', hw, rfl⟩
          · exact Or.inl (List.mem_cons_of_mem a h)
          · exact Or.inr (Or.inl h)
          · cases hw

theorem collapseAux_chain : ∀ (l : List Char) (st : Option (Char × Bool)),
    List.Chain' wsChain (collapseAux st l) := by
  intro l
  induction l with
  | nil =>
    intro st
    match st with
    | none => exact List.chain'_nil
    | some (w, more) => exact List.chain'_singleton _
  | cons a t ih =>
    intro st
    match st with
    | none =>
      by_cases ha : isWs a = true
      · simpa only [collapseAux, if_pos ha] using ih _
      · simp only [collapseAux, if_neg ha]
        refine List.chain'_cons'.mpr ⟨fun y _ => Or.inl ?_, ih none⟩
        simpa using ha
    | some (w, more) =>
      by_cases ha : isWs a = true
      · simpa only [collapseAux, if_pos ha] using ih _
      · simp only [collapseAux, if_neg ha]
        have ha' : isWs a = false := by simpa using ha
        refine List.chain'_cons'.mpr ⟨fun y hy => Or.inr ?_, ?_⟩
        · simp only [List.head?_cons, Option.mem_def, Option.some.injEq] at hy
          rw [← hy]
          exact ha'
        · exact List.chain'_cons'.mpr ⟨fun y _ => Or.inl ha', ih none⟩

theorem collapseAux_id : ∀ (l : List Char), List.Chain' wsChain l →
    collapseAux none l = l ∧
    ∀ w, isWs w = true → headIs isWs l = false → collapseAux (some (w, false)) l = w :: l := by
  intro l
  induction l with
  | nil => exact fun _ => ⟨rfl, fun w _ _ => rfl⟩
  | cons c t ih =>
    intro h
    have ht : List.Chain' wsChain t := h.tail
    obtain ⟨ih1, ih2⟩ := ih ht
    constructor
    · by_cases hc : isWs c = true
      · simp only [collapseAux, if_pos hc]
        have hhead : headIs isWs t = false := by
          cases t with
          | nil => rfl
          | cons d t2 =>
            rcases (List.chain'_cons'.mp h).1 d rfl with hd | hd
            · rw [hc] at hd; cases hd
            · exact hd
        exact ih2 c hc hhead
      · simp only [collapseAux, if_neg hc, ih1]
    · intro w hw hhead
      have hc : isWs c = false := hhead
      simp only [collapseAux, hc, Bool.false_eq_true, if_neg, ih1]
      simp

theorem collapseWs_chain (l : List Char) : List.Chain' wsChain (collapseWs l) :=
  collapseAux_chain l none

theorem collapseWs_id (l : List Char) (h : List.Chain' wsChain l) : collapseWs l = l :=
  (collapseAux_id l h).1

theorem headIs_dropWhile (p : Char → Bool) : ∀ (l : List Char),
    headIs p (l.dropWhile p) = false := by
  intro l
  induction l with
  | nil => rfl
  | cons c t ih =>
    by_cases hc : p c = true
    · rw [List.dropWhile_cons, if_pos hc]; exact ih
    · rw [List.dropWhile_cons, if_neg hc]
      simpa [headIs] using hc

theorem lastIs_cons (p : Char → Bool) (c : Char) (t : List Char) (h : t ≠ []) :
    lastIs p (c :: t) = lastIs p t := by
  unfold lastIs
  rw [List.reverse_cons]
  cases ht : t.reverse with
  | nil =>
    exact absurd (by simpa using ht) h
  | cons d r => simp [headIs, ht]

theorem lastIs_dropWhile (p : Char → Bool) : ∀ (l : List Char),
    lastIs p l = false → lastIs p (l.dropWhile p) = false := by
  intro l
  induction l with
  | nil => intro; rfl
  | cons c t ih =>
    intro h
    by_cases hc : p c = true
    · rw [List.dropWhile_cons, if_pos hc]
      cases ht : t with
      | nil =>
        subst ht
        simp only [lastIs, List.reverse_cons, List.reverse_nil, List.nil_append, headIs] at h
        rw [hc] at h
        cases h
      | cons d r =>
        subst ht
        exact ih (by rw [← lastIs_cons p c _ (by simp)]; exact h)
    · rw [List.dropWhile_cons, if_neg hc]
      exact h

theorem dropWhile_id_of_head (p : Char → Bool) (l : List Char) (h : headIs p l = false) :
    l.dropWhile p = l := by
  cases l with
  | nil => rfl
  | cons c t =>
    rw [List.dropWhile_cons, if_neg]
    rw [headIs] at h
    simp [h]

theorem trimEnds_id (p : Char → Bool) (l : List Char)
    (h1 : headIs p l = false) (h2 : lastIs p l = false) :
    ((l.dropWhile p).reverse.dropWhile p).reverse = l := by
  rw [dropWhile_id_of_head p l h1, dropWhile_id_of_head p l.reverse h2, List.reverse_reverse]

theorem wsChain_reverse (l : List Char) (h : List.Chain' wsChain l) :
    List.Chain' wsChain l.reverse := by
  rw [List.chain'_reverse]
  exact h.imp (fun a b hab => hab.symm)

theorem wsChain_dropWhile (p : Char → Bool) (l : List Char) (h : List.Chain' wsChain l) :
    List.Chain' wsChain (l.dropWhile p) :=
  h.suffix (List.dropWhile_suffix p)

theorem mem_trimEnds (p : Char → Bool) (l : List Char) (c : Char)
    (hc : c ∈ ((l.dropWhile p).reverse.dropWhile p).reverse) : c ∈ l := by
  rw [List.mem_reverse] at hc
  have h2 := List.Sublist.mem hc (List.dropWhile_suffix p).sublist
  rw [List.mem_reverse] at h2
  exact List.Sublist.mem h2 (List.dropWhile_suffix p).sublist

theorem headIs_trimEnds (p : Char → Bool) (l : List Char) :
    headIs p (((l.dropWhile p).reverse.dropWhile p).reverse) = false := by
  show lastIs p ((l.dropWhile p).reverse.dropWhile p) = false
  apply lastIs_dropWhile
  show headIs p (l.dropWhile p).reverse.reverse = false
  rw [List.reverse_reverse]
  exact headIs_dropWhile p l

theorem lastIs_trimEnds (p : Char → Bool) (l : List Char) :
    lastIs p (((l.dropWhile p).reverse.dropWhile p).reverse) = false := by
  show headIs p ((l.dropWhile p).reverse.dropWhile p).reverse.reverse = false
  rw [List.reverse_reverse]
  exact headIs_dropWhile p (l.dropWhile p).reverse

theorem normalizeList_fix (l : List Char)
    (h1 : headIs isQuote (normalizeList l) = false)
    (h2 : lastIs isQuote (normalizeList l) = false) :
    normalizeList (normalizeList l) = normalizeList l := by
  have hznl : ∀ c ∈ collapseWs (replCRLF l), isNl c = false := by
    intro c hc
    rcases collapseAux_mem (replCRLF l) none c hc with h | h | ⟨w, m, hw, _⟩
    · exact replCRLF_no_nl l c h
    · subst h; rfl
    · cases hw
  have hzch : List.Chain' wsChain (collapseWs (replCRLF l)) := collapseWs_chain (replCRLF l)
  have hynl : ∀ c ∈ normalizeList l, isNl c = false := by
    intro c hc
    exact hznl c (mem_trimEnds isQuote _ c (mem_trimEnds isWs _ c hc))
  have hych : List.Chain' wsChain (normalizeList l) := by
    unfold normalizeList trimWs stripQuotes
    exact wsChain_reverse _ (wsChain_dropWhile _ _ (wsChain_reverse _ (wsChain_dropWhile _ _
      (wsChain_reverse _ (wsChain_dropWhile _ _ (wsChain_reverse _ (wsChain_dropWhile _ _ hzch)))))))
  have hws1 : headIs isWs (normalizeList l) = false := headIs_trimEnds isWs _
  have hws2 : lastIs isWs (normalizeList l) = false := lastIs_trimEnds isWs _
  show trimWs (stripQuotes (collapseWs (replCRLF (normalizeList l)))) = normalizeList l
  rw [replCRLF_id _ hynl, collapseWs_id _ hych,
    show stripQuotes (normalizeList l) = normalizeList l from trimEnds_id isQuote _ h1 h2]
  exact trimEnds_id isWs _ hws1 hws2

/-- C2, amended: normalization is idempotent on every input whose
normalized form neither begins nor ends with a quote character; on
other inputs (where trimming exposes an outer quote run) a second
application strips further. -/
theorem c2_normalize_idempotent_amended (s : String)
    (h1 : headIs isQuote (normalizeAddress s).data = false)
    (h2 : lastIs isQuote (normalizeAddress s).data = false) :
    normalizeAddress (normalizeAddress s) = normalizeAddress s := by
  show String.mk (normalizeList (normalizeAddress s).data) = normalizeAddress s
  rw [show (normalizeAddress s).data = normalizeList s.data from rfl,
    normalizeList_fix s.data h1 h2]
  rfl

/-- Witness for the amended C2 at a concrete address. -/
theorem c2_normalize_idempotent_amended_witness :
    headIs isQuote (normalizeAddress "12  Rue de la Paix\nParis").data = false ∧
    lastIs isQuote (normalizeAddress "12  Rue de la Paix\nParis").data = false ∧
    normalizeAddress (normalizeAddress "12  Rue de la Paix\nParis")
      = normalizeAddress "12  Rue de la Paix\nParis" :=
  ⟨by decide, by decide, c2_normalize_idempotent_amended _ (by decide) (by decide)⟩

theorem tryGeocode_of_ok (key : String) (provider : String → FetchOutcome) (q : String)
    (g : Option Coords) (hk : key ≠ "") (h : provider q = FetchOutcome.ok g) :
    tryGeocode key provider q = (Except.ok g, [q]) := by
  unfold tryGeocode
  rw [if_neg hk, h]

theorem fallbackSweep_spec (key : String) (provider : String → FetchOutcome)
    (cleaned : String) :
    ∀ (l : List String) (k : Nat) (c : Coords), key ≠ "" →
    (∀ j, j < k → ∀ s, l[j]? = some s →
        provider (cleaned ++ ", " ++ s) = FetchOutcome.ok none) →
    (∀ s, l[k]? = some s →
        provider (cleaned ++ ", " ++ s) = FetchOutcome.ok (some c)) →
    k < l.length →
    fallbackSweep key provider cleaned l
      = (Except.ok (some c), (l.take (k+1)).map (fun s => cleaned ++ ", " ++ s)) := by
  intro l
  induction l with
  | nil =>
    intro k c _ _ _ hk
    simp at hk
  | cons x rest ih =>
    intro k c hkey hbefore hkth hk
    cases k with
    | zero =>
      have hx := hkth x (by simp)
      unfold fallbackSweep
      rw [tryGeocode_of_ok key provider _ _ hkey hx]
      simp
    | succ k2 =>
      have hx := hbefore 0 (Nat.succ_pos k2) x (by simp)
      unfold fallbackSweep
      rw [tryGeocode_of_ok key provider _ _ hkey hx,
        ih k2 c hkey
          (fun j hj s hs => hbefore (j+1) (Nat.succ_lt_succ hj) s (by simpa using hs))
          (fun s hs => hkth s (by simpa using hs))
          (Nat.lt_of_succ_lt_succ hk)]
      simp

/-- C1, amended: when the bare query fails, no country word is present,
and the `", USA"` retry also fails whenever it is applicable, the
fallback countries are attempted against the primary provider in the
exact fixed order France, United Kingdom, Singapore, Australia, China,
Japan, Korea, Netherlands, stopping at the first success: a success on
country index `k` is preceded by exactly the bare query, the optional
USA retry, and the `k` earlier fallback queries, and no later country
is tried. -/
theorem c1_fallback_order (key : String) (cache : String → Option Coords)
    (provider : String → FetchOutcome) (a : String) (k : Nat) (c : Coords)
    (hkey : key ≠ "") (hne : normalizeAddress a ≠ "")
    (hmiss : cache (normalizeAddress a) = none)
    (hcw : hasCountryWord (normalizeAddress a) = false)
    (hbare : provider (normalizeAddress a) = FetchOutcome.ok none)
    (husa : looksLikeUS (normalizeAddress a) = true →
        provider (normalizeAddress a ++ ", USA") = FetchOutcome.ok none)
    (hk : k < fallbackCountries.length)
    (hbefore : ∀ j, j < k → ∀ s, fallbackCountries[j]? = some s →
        provider (normalizeAddress a ++ ", " ++ s) = FetchOutcome.ok none)
    (hkth : ∀ s, fallbackCountries[k]? = some s →
        provider (normalizeAddress a ++ ", " ++ s) = FetchOutcome.ok (some c)) :
    (geocodeAddress key cache provider a).res = Except.ok (some c) ∧
    (geocodeAddress key cache provider a).fetches
      = [normalizeAddress a]
        ++ (if looksLikeUS (normalizeAddress a) then [normalizeAddress a ++ ", USA"] else [])
        ++ (fallbackCountries.take (k+1)).map (fun s => normalizeAddress a ++ ", " ++ s) := by
  have hsweep := fallbackSweep_spec key provider (normalizeAddress a)
    fallbackCountries k c hkey hbefore hkth hk
  have hcore : geocodeCore key provider (normalizeAddress a)
      = (Except.ok (some c),
         [normalizeAddress a]
           ++ (if looksLikeUS (normalizeAddress a) then [normalizeAddress a ++ ", USA"] else [])
           ++ (fallbackCountries.take (k+1)).map (fun s => normalizeAddress a ++ ", " ++ s)) := by
    unfold geocodeCore
    rw [tryGeocode_of_ok key provider _ _ hkey hbare]
    by_cases hus : looksLikeUS (normalizeAddress a) = true
    · simp only [Option.isNone_none, hcw, hus, Bool.not_false, Bool.true_and, Bool.and_self,
        if_true, if_pos]
      rw [tryGeocode_of_ok key provider _ _ hkey (husa hus), hsweep]
      simp
    · have hus' : looksLikeUS (normalizeAddress a) = false := by
        cases h : looksLikeUS (normalizeAddress a)
        · rfl
        · exact absurd h hus
      simp only [Option.isNone_none, hcw, hus', Bool.not_false, Bool.true_and, Bool.and_false,
        if_false, Bool.false_eq_true]
      rw [hsweep]
      simp
  rw [geocodeAddress_miss_some key cache provider a c _ hne hmiss hcore]
  exact ⟨rfl, rfl⟩

/-- Witness for the amended C1: a provider that succeeds only on the
third fallback country (Singapore) sees exactly the bare query, the two
earlier fallback queries, and the Singapore query, in order. -/
theorem c1_fallback_order_witness :
    (geocodeAddress "k" (fun _ => none)
        (fun q => if q = "x y, Singapore" then
            FetchOutcome.ok (some ⟨JsVal.fin 1, JsVal.fin 2⟩) else FetchOutcome.ok none)
        "x y").res = Except.ok (some ⟨JsVal.fin 1, JsVal.fin 2⟩) ∧
    (geocodeAddress "k" (fun _ => none)
        (fun q => if q = "x y, Singapore" then
            FetchOutcome.ok (some ⟨JsVal.fin 1, JsVal.fin 2⟩) else FetchOutcome.ok none)
        "x y").fetches
      = ["x y", "x y, France", "x y, United Kingdom", "x y, Singapore"] := by
  have h := c1_fallback_order "k" (fun _ => none)
    (fun q => if q = "x y, Singapore" then
        FetchOutcome.ok (some ⟨JsVal.fin 1, JsVal.fin 2⟩) else FetchOutcome.ok none)
    "x y" 2 ⟨JsVal.fin 1, JsVal.fin 2⟩
    (by decide) (by decide) rfl (by decide) (by decide)
    (fun hus => absurd hus (by decide)) (by decide)
    (by
      intro j hj s hs
      match j, hj with
      | 0, _ => cases hs; decide
      | 1, _ => cases hs; decide)
    (by intro s hs; cases hs; decide)
  exact ⟨h.1, by rw [h.2]; decide⟩

theorem tryGeocode_fetches (key : String) (p : String → FetchOutcome) (q : String) :
    ∀ x ∈ (tryGeocode key p q).2, x = q := by
  unfold tryGeocode
  by_cases hk : key = ""
  · simp [hk]
  · rw [if_neg hk]
    cases p q <;> simp

theorem fallbackSweep_mem (key : String) (p : String → FetchOutcome) (cleaned : String) :
    ∀ (l : List String) (q : String),
    q ∈ (fallbackSweep key p cleaned l).2 → ∃ s, s ∈ l ∧ q = cleaned ++ ", " ++ s := by
  intro l
  induction l with
  | nil =>
    intro q hq
    cases hq
  | cons x rest ih =>
    intro q hq
    have halog := tryGeocode_fetches key p (cleaned ++ ", " ++ x)
    unfold fallbackSweep at hq
    rcases htg : tryGeocode key p (cleaned ++ ", " ++ x) with ⟨r, alog⟩
    rw [htg] at hq halog
    match r, hq with
    | Except.error e, hq =>
      exact ⟨x, List.mem_cons_self x rest, halog q hq⟩
    | Except.ok (some hit), hq =>
      exact ⟨x, List.mem_cons_self x rest, halog q hq⟩
    | Except.ok none, hq =>
      rcases hs : fallbackSweep key p cleaned rest with ⟨r2, a2⟩
      rw [hs] at hq
      simp only [List.mem_append] at hq
      rcases hq with hq | hq
      · exact ⟨x, List.mem_cons_self x rest, halog q hq⟩
      · rcases ih q (by rw [hs]; exact hq) with ⟨s, hsmem, hqe⟩
        exact ⟨s, List.mem_cons_of_mem x hsmem, hqe⟩

theorem usaQuery_ne_self (cleaned : String) : cleaned ++ ", USA" ≠ cleaned := by
  intro h
  have hlen := congrArg String.length h
  rw [String.length_append] at hlen
  have h5 : (", USA" : String).length = 5 := rfl
  omega

theorem usaQuery_ne_country (cleaned s : String) (hs : s ∈ fallbackCountries) :
    cleaned ++ ", " ++ s ≠ cleaned ++ ", USA" := by
  intro h
  have hlen := congrArg String.length h
  rw [String.length_append, String.length_append, String.length_append] at hlen
  have h3 : s.length = 3 := by
    have h2 : (", " : String).length = 2 := rfl
    have h5 : (", USA" : String).length = 5 := rfl
    omega
  fin_cases hs <;> exact absurd h3 (by decide)

theorem tryGeocode_fetches_eq (key : String) (p : String → FetchOutcome) (q : String)
    (hk : key ≠ "") : (tryGeocode key p q).2 = [q] := by
  unfold tryGeocode
  rw [if_neg hk]
  cases p q <;> rfl

theorem tryGeocode_throw (key : String) (p : String → FetchOutcome) (q : String)
    (hk : key ≠ "") (h : p q = FetchOutcome.throwEx) :
    tryGeocode key p q = (Except.error GeoError.transportError, [q]) := by
  unfold tryGeocode
  rw [if_neg hk, h]

theorem tryGeocode_http (key : String) (p : String → FetchOutcome) (q : String)
    (hk : key ≠ "") (h : p q = FetchOutcome.httpError) :
    tryGeocode key p q = (Except.ok none, [q]) := by
  unfold tryGeocode
  rw [if_neg hk, h]

theorem geocodeCore_usa_mem (key : String) (provider : String → FetchOutcome)
    (cleaned : String) (hkey : key ≠ "") :
    (cleaned ++ ", USA") ∈ (geocodeCore key provider cleaned).2
      ↔ (returnedNull (provider cleaned) = true ∧
         hasCountryWord cleaned = false ∧ looksLikeUS cleaned = true) := by
  have husane := usaQuery_ne_self cleaned
  unfold geocodeCore
  cases hp : provider cleaned with
  | throwEx =>
    rw [tryGeocode_throw key provider cleaned hkey hp]
    simp [returnedNull, husane]
  | ok g =>
    cases g with
    | some hit =>
      rw [tryGeocode_of_ok key provider cleaned _ hkey hp]
      simp [returnedNull, husane]
    | none =>
      rw [tryGeocode_of_ok key provider cleaned _ hkey hp]
      cases hcw : hasCountryWord cleaned with
      | true =>
        simp only [Option.isNone_none, hcw, Bool.not_true, Bool.true_and, Bool.false_and,
          Bool.and_false, if_false, Bool.false_eq_true, returnedNull]
        simp [husane]
      | false =>
        cases hus : looksLikeUS cleaned with
        | true =>
          simp only [Option.isNone_none, hcw, hus, Bool.not_false, Bool.true_and,
            Bool.and_self, if_true, if_pos]
          rcases htg2 : tryGeocode key provider (cleaned ++ ", USA") with ⟨r2, a2⟩
          have ha2 : a2 = [cleaned ++ ", USA"] := by
            have := tryGeocode_fetches_eq key provider (cleaned ++ ", USA") hkey
            rw [htg2] at this
            exact this
          subst ha2
          match r2 with
          | Except.error e => simp [returnedNull]
          | Except.ok (some hit) => simp [returnedNull]
          | Except.ok none =>
            rcases hsw : fallbackSweep key provider cleaned fallbackCountries with ⟨r3, a3⟩
            simp only [Option.isNone_none, hcw, Bool.not_false, Bool.true_and, if_true, if_pos, hsw]
            simp [returnedNull]
        | false =>
          simp only [Option.isNone_none, hcw, hus, Bool.not_false, Bool.true_and,
            Bool.and_false, if_false, Bool.false_eq_true]
          rcases hsw : fallbackSweep key provider cleaned fallbackCountries with ⟨r3, a3⟩
          simp only [Option.isNone_none, hcw, Bool.not_false, Bool.true_and, if_true, if_pos, hsw]
          simp only [returnedNull, List.nil_append, List.mem_append, List.mem_singleton]
          constructor
          · intro h
            rcases h with (h | h) | h
            · exact absurd h husane
            · cases h
            · rcases fallbackSweep_mem key provider cleaned fallbackCountries _
                (by rw [hsw]; exact h) with ⟨s, hsmem, hqe⟩
              exact absurd hqe.symm (usaQuery_ne_country cleaned s hsmem)
          · intro h
            rcases h with ⟨_, _, h3⟩
            cases h3
  | httpError =>
    rw [tryGeocode_http key provider cleaned hkey hp]
    cases hcw : hasCountryWord cleaned with
    | true =>
      simp only [Option.isNone_none, hcw, Bool.not_true, Bool.true_and, Bool.false_and,
        Bool.and_false, if_false, Bool.false_eq_true, returnedNull]
      simp [husane]
    | false =>
      cases hus : looksLikeUS cleaned with
      | true =>
        simp only [Option.isNone_none, hcw, hus, Bool.not_false, Bool.true_and,
          Bool.and_self, if_true, if_pos]
        rcases htg2 : tryGeocode key provider (cleaned ++ ", USA") with ⟨r2, a2⟩
        have ha2 : a2 = [cleaned ++ ", USA"] := by
          have := tryGeocode_fetches_eq key provider (cleaned ++ ", USA") hkey
          rw [htg2] at this
          exact this
        subst ha2
        match r2 with
        | Except.error e => simp [returnedNull]
        | Except.ok (some hit) => simp [returnedNull]
        | Except.ok none =>
          rcases hsw : fallbackSweep key provider cleaned fallbackCountries with ⟨r3, a3⟩
          simp only [Option.isNone_none, hcw, Bool.not_false, Bool.true_and, if_true, if_pos, hsw]
          simp [returnedNull]
      | false =>
        simp only [Option.isNone_none, hcw, hus, Bool.not_false, Bool.true_and,
          Bool.and_false, if_false, Bool.false_eq_true]
        rcases hsw : fallbackSweep key provider cleaned fallbackCountries with ⟨r3, a3⟩
        simp only [Option.isNone_none, hcw, Bool.not_false, Bool.true_and, if_true, if_pos, hsw]
        simp only [returnedNull, List.nil_append, List.mem_append, List.mem_singleton]
        constructor
        · intro h
          rcases h with (h | h) | h
          · exact absurd h husane
          · cases h
          · rcases fallbackSweep_mem key provider cleaned fallbackCountries _
              (by rw [hsw]; exact h) with ⟨s, hsmem, hqe⟩
            exact absurd hqe.symm (usaQuery_ne_country cleaned s hsmem)
        · intro h
          rcases h with ⟨_, _, h3⟩
          cases h3

theorem geocodeAddress_miss_fetches (key : String) (cache : String → Option Coords)
    (provider : String → FetchOutcome) (a : String)
    (hne : normalizeAddress a ≠ "") (hmiss : cache (normalizeAddress a) = none) :
    (geocodeAddress key cache provider a).fetches
      = (geocodeCore key provider (normalizeAddress a)).2 := by
  rcases hcore : geocodeCore key provider (normalizeAddress a) with ⟨r, l⟩
  match r, hcore with
  | Except.error e, hcore =>
    rw [geocodeAddress_miss_err key cache provider a e l hne hmiss hcore]
  | Except.ok none, hcore =>
    rw [geocodeAddress_miss_none key cache provider a l hne hmiss hcore]
  | Except.ok (some h), hcore =>
    rw [geocodeAddress_miss_some key cache provider a h l hne hmiss hcore]

/-- C4: for a resolution that reaches the provider stage (nonempty
normalized address, cache miss, configured credential), the `", USA"`
retry is fetched if and only if the bare query completed without
coordinates (HTTP error or empty results), the address has no
recognized country word, and it matches the US-shape pattern
`, XX [zip]` with `XX` in the state set; in particular a two-letter
code outside the set (such as GB) never triggers the retry. -/
theorem c4_usa_retry_iff (key : String) (cache : String → Option Coords)
    (provider : String → FetchOutcome) (a : String)
    (hkey : key ≠ "") (hne : normalizeAddress a ≠ "")
    (hmiss : cache (normalizeAddress a) = none) :
    (normalizeAddress a ++ ", USA") ∈ (geocodeAddress key cache provider a).fetches
      ↔ (returnedNull (provider (normalizeAddress a)) = true ∧
         hasCountryWord (normalizeAddress a) = false ∧
         looksLikeUS (normalizeAddress a) = true) := by
  rw [geocodeAddress_miss_fetches key cache provider a hne hmiss]
  exact geocodeCore_usa_mem key provider (normalizeAddress a) hkey

/-- Witness for C4 in both directions: the DC-shaped address triggers
the USA retry when the bare query fails, and the GB-suffixed address
never does. -/
theorem c4_usa_retry_iff_witness :
    ("1600 Pennsylvania Ave, Washington, DC 20500" ++ ", USA") ∈
      (geocodeAddress "k" (fun _ => none) (fun _ => FetchOutcome.ok none)
        "1600 Pennsylvania Ave, Washington, DC 20500").fetches ∧
    ¬ (("221B Baker St, London, GB" ++ ", USA") ∈
      (geocodeAddress "k" (fun _ => none) (fun _ => FetchOutcome.ok none)
        "221B Baker St, London, GB").fetches) := by
  constructor
  · exact (c4_usa_retry_iff "k" (fun _ => none) (fun _ => FetchOutcome.ok none)
      "1600 Pennsylvania Ave, Washington, DC 20500" (by decide) (by decide) rfl).mpr
      (by refine ⟨rfl, by decide, by decide⟩)
  · intro hmem
    have h := (c4_usa_retry_iff "k" (fun _ => none) (fun _ => FetchOutcome.ok none)
      "221B Baker St, London, GB" (by decide) (by decide) rfl).mp hmem
    exact absurd h.2.2 (by decide)

theorem tryGeocode_sanitize (key : String) (provider : String → FetchOutcome) (q : String) :
    tryGeocode key (sanitizeHttp provider) q = tryGeocode key provider q := by
  unfold tryGeocode sanitizeHttp
  by_cases hk : key = ""
  · simp [hk]
  · rw [if_neg hk, if_neg hk]
    cases provider q <;> rfl

theorem fallbackSweep_sanitize (key : String) (provider : String → FetchOutcome)
    (cleaned : String) : ∀ (l : List String),
    fallbackSweep key (sanitizeHttp provider) cleaned l
      = fallbackSweep key provider cleaned l := by
  intro l
  induction l with
  | nil => rfl
  | cons x rest ih =>
    unfold fallbackSweep
    rw [tryGeocode_sanitize, ih]

theorem geocodeCore_sanitize (key : String) (provider : String → FetchOutcome)
    (cleaned : String) :
    geocodeCore key (sanitizeHttp provider) cleaned = geocodeCore key provider cleaned := by
  unfold geocodeCore
  simp only [tryGeocode_sanitize, fallbackSweep_sanitize]

theorem tryGeocode_no_error (key : String) (p : String → FetchOutcome) (q : String)
    (hk : key ≠ "") (hth : p q ≠ FetchOutcome.throwEx) :
    ∀ e, (tryGeocode key p q).1 ≠ Except.error e := by
  intro e
  unfold tryGeocode
  rw [if_neg hk]
  cases hp : p q with
  | throwEx => exact absurd hp hth
  | httpError => simp
  | ok g => simp

theorem fallbackSweep_no_error (key : String) (p : String → FetchOutcome) (cleaned : String)
    (hk : key ≠ "") (hth : ∀ q, p q ≠ FetchOutcome.throwEx) :
    ∀ (l : List String) (e : GeoError),
    (fallbackSweep key p cleaned l).1 ≠ Except.error e := by
  intro l
  induction l with
  | nil => intro e h; cases h
  | cons x rest ih =>
    intro e
    unfold fallbackSweep
    rcases htg : tryGeocode key p (cleaned ++ ", " ++ x) with ⟨r, alog⟩
    have hr := tryGeocode_no_error key p (cleaned ++ ", " ++ x) hk (hth _)
    rw [htg] at hr
    match r, hr with
    | Except.error e2, hr => exact absurd rfl (hr e2)
    | Except.ok (some hit), _ => simp
    | Except.ok none, _ =>
      rcases hsw : fallbackSweep key p cleaned rest with ⟨r2, a2⟩
      have := ih e
      rw [hsw] at this
      simpa using this

theorem geocodeCore_ok (key : String) (provider : String → FetchOutcome) (cleaned : String)
    (hkey : key ≠ "") (hthrow : ∀ q, provider q ≠ FetchOutcome.throwEx) :
    exceptOk (geocodeCore key provider cleaned).1 = true := by
  unfold geocodeCore
  rcases h1 : tryGeocode key provider cleaned with ⟨r1, a1⟩
  have hr1 := tryGeocode_no_error key provider cleaned hkey (hthrow _)
  rw [h1] at hr1
  match r1, hr1 with
  | Except.error e, hr1 => exact absurd rfl (hr1 e)
  | Except.ok hit1, _ =>
    rcases h2 : (if hit1.isNone && !hasCountryWord cleaned && looksLikeUS cleaned then
        tryGeocode key provider (cleaned ++ ", USA") else (Except.ok hit1, [])) with ⟨r2, a2⟩
    have hr2 : ∀ e, r2 ≠ Except.error e := by
      intro e he
      subst he
      by_cases hc : (hit1.isNone && !hasCountryWord cleaned && looksLikeUS cleaned) = true
      · rw [if_pos hc] at h2
        have := tryGeocode_no_error key provider (cleaned ++ ", USA") hkey (hthrow _) e
        rw [h2] at this
        exact this rfl
      · rw [if_neg hc] at h2
        cases h2
    match r2, hr2 with
    | Except.error e, hr2 => exact absurd rfl (hr2 e)
    | Except.ok hit2, _ =>
      simp only [h2]
      rcases h3 : (if hit2.isNone && !hasCountryWord cleaned then
          fallbackSweep key provider cleaned fallbackCountries
        else (Except.ok hit2, [])) with ⟨r3, a3⟩
      have hr3 : ∀ e, r3 ≠ Except.error e := by
        intro e he
        subst he
        by_cases hc : (hit2.isNone && !hasCountryWord cleaned) = true
        · rw [if_pos hc] at h3
          have := fallbackSweep_no_error key provider cleaned hkey hthrow fallbackCountries e
          rw [h3] at this
          exact this rfl
        · rw [if_neg hc] at h3
          cases h3
      simp only [h3]
      match r3, hr3 with
      | Except.error e, hr3 => exact absurd rfl (hr3 e)
      | Except.ok g, _ => rfl

/-- C6, amended: a non-success HTTP status is treated by the `part_003`
orchestrator exactly like an empty result — replacing every HTTP-error
outcome of the provider by a successful empty response leaves the whole
resolution (result, fetches and cache) unchanged — and when no call
throws a transport exception (and the credential is present) the caller
always receives a plain result, never an error; a thrown transport
exception, by contrast, propagates to the caller (see the
counterexample). -/
theorem c6_http_error_like_null (key : String) (cache : String → Option Coords)
    (provider : String → FetchOutcome) (a : String) :
    geocodeAddress key cache (sanitizeHttp provider) a = geocodeAddress key cache provider a ∧
    ((∀ q, provider q ≠ FetchOutcome.throwEx) → key ≠ "" →
      exceptOk (geocodeAddress key cache provider a).res = true) := by
  constructor
  · unfold geocodeAddress
    simp only [geocodeCore_sanitize]
  · intro hthrow hkey
    by_cases hne : normalizeAddress a = ""
    · rw [geocodeAddress_empty key cache provider a hne]
      rfl
    · cases hhit : cache (normalizeAddress a) with
      | some c =>
        rw [geocodeAddress_hit key cache provider a c hne hhit]
        rfl
      | none =>
        have hok := geocodeCore_ok key provider (normalizeAddress a) hkey hthrow
        rcases hcore : geocodeCore key provider (normalizeAddress a) with ⟨r, l⟩
        rw [hcore] at hok
        match r, hok with
        | Except.ok none, _ =>
          rw [geocodeAddress_miss_none key cache provider a l hne hhit hcore]
          rfl
        | Except.ok (some h), _ =>
          rw [geocodeAddress_miss_some key cache provider a h l hne hhit hcore]
          rfl

/-- Witness for the amended C6: a provider that always answers with a
non-success HTTP status behaves exactly like one that always returns an
empty result, and the caller receives a plain null, not an error. -/
theorem c6_http_error_like_null_witness :
    geocodeAddress "k" (fun _ => none) (sanitizeHttp (fun _ => FetchOutcome.httpError)) "Paris"
      = geocodeAddress "k" (fun _ => none) (fun _ => FetchOutcome.httpError) "Paris" ∧
    exceptOk (geocodeAddress "k" (fun _ => none)
        (fun _ => FetchOutcome.httpError) "Paris").res = true :=
  ⟨(c6_http_error_like_null "k" (fun _ => none) (fun _ => FetchOutcome.httpError) "Paris").1,
   (c6_http_error_like_null "k" (fun _ => none) (fun _ => FetchOutcome.httpError) "Paris").2
     (fun _ h => FetchOutcome.noConfusion h) (by decide)⟩

theorem nomStep_finite (nom : String → NomOutcome) (addr : String) (out : Coords)
    (h : nomStep nom addr = some out) :
    out.lat.isFinite = true ∧ out.lng.isFinite = true := by
  unfold nomStep at h
  cases hn : nom addr <;> rw [hn] at h
  case throwEx => cases h
  case httpError => cases h
  case ok item =>
    cases item with
    | none => cases h
    | some it =>
      simp only at h
      by_cases hc : (it.lat.isFinite && it.lng.isFinite) = true
      · rw [if_pos hc] at h
        cases h
        exact ⟨(Bool.and_eq_true _ _).mp hc |>.1, (Bool.and_eq_true _ _).mp hc |>.2⟩
      · rw [if_neg hc] at h
        cases h

/-- C8, amended: finiteness is enforced only on the secondary-provider
path of the two-provider variant (`part_000`): whenever the in-process
cache misses, the primary (OpenCage) step yields nothing, and the
resolution still returns coordinates, those coordinates passed the
`Number.isFinite` guard and are finite in both components.  The
primary path of `part_000` only checks the JS type (±Infinity passes),
and the `part_003` pipeline performs no numeric check at all (see the
counterexample). -/
theorem c8_nominatim_finite (key : String) (mem : String → Option Coords)
    (oc : String → FetchOutcome) (nom : String → NomOutcome) (address : String)
    (c : Coords)
    (hres : (geocodeAddressMem key mem oc nom address).1 = some c)
    (hne : trimString address ≠ "")
    (hmem : mem (trimString address) = none)
    (hoc : ocStep key oc (trimString address) = none) :
    c.lat.isFinite = true ∧ c.lng.isFinite = true := by
  unfold geocodeAddressMem at hres
  simp only [if_neg hne, hmem, hoc] at hres
  cases hnom : nomStep nom (trimString address) with
  | none =>
    rw [hnom] at hres
    cases hres
  | some out =>
    rw [hnom] at hres
    simp only at hres
    cases hres
    exact nomStep_finite nom (trimString address) _ hnom

/-- Witness for the amended C8: with no key (primary skipped) and a
secondary provider returning finite parsed coordinates, the result is
finite in both components. -/
theorem c8_nominatim_finite_witness :
    (geocodeAddressMem "" (fun _ => none) (fun _ => FetchOutcome.ok none)
        (fun _ => NomOutcome.ok (some ⟨JsVal.fin 1, JsVal.fin 2⟩)) "Paris").1
      = some ⟨JsVal.fin 1, JsVal.fin 2⟩ ∧
    (JsVal.fin 1).isFinite = true ∧ (JsVal.fin 2).isFinite = true :=
  ⟨rfl,
   c8_nominatim_finite "" (fun _ => none) (fun _ => FetchOutcome.ok none)
     (fun _ => NomOutcome.ok (some ⟨JsVal.fin 1, JsVal.fin 2⟩)) "Paris"
     ⟨JsVal.fin 1, JsVal.fin 2⟩ rfl (by decide) rfl rfl⟩

theorem dedupAux_cons (seen : List String) (x : String) (rest : List String) :
    dedupAux seen (x :: rest)
      = if seen.contains x then dedupAux seen rest else x :: dedupAux (x :: seen) rest :=
  rfl

theorem dedupAux_not_seen : ∀ (l seen : List String) (a : String),
    a ∈ dedupAux seen l → seen.contains a = false := by
  intro l
  induction l with
  | nil =>
    intro seen a ha
    cases ha
  | cons x rest ih =>
    intro seen a ha
    by_cases hx : seen.contains x = true
    · rw [dedupAux_cons, if_pos hx] at ha
      exact ih seen a ha
    · rw [dedupAux_cons, if_neg hx] at ha
      rcases List.mem_cons.mp ha with rfl | ha
      · simpa using hx
      · have := ih (x :: seen) a ha
        simp only [List.contains_cons, Bool.or_eq_false_iff] at this
        exact this.2

theorem dedupAux_nodup : ∀ (l seen : List String), (dedupAux seen l).Nodup := by
  intro l
  induction l with
  | nil =>
    intro seen
    exact List.nodup_nil
  | cons x rest ih =>
    intro seen
    by_cases hx : seen.contains x = true
    · rw [dedupAux_cons, if_pos hx]
      exact ih seen
    · rw [dedupAux_cons, if_neg hx]
      refine List.nodup_cons.mpr ⟨fun hmem => ?_, ih (x :: seen)⟩
      have := dedupAux_not_seen rest (x :: seen) x hmem
      simp at this

theorem uniqList_nodup (batch : List String) : (uniqList batch).Nodup :=
  (dedupAux_nodup _ []).sublist (List.take_sublist 400 _)

theorem runBatch_logs (key : String) (provider : String → FetchOutcome) :
    ∀ (l : List String) (cache : String → Option Coords),
    (runBatch key provider l cache).logs.map Prod.fst = l := by
  intro l
  induction l with
  | nil => intro cache; rfl
  | cons a rest ih =>
    intro cache
    unfold runBatch
    rcases hga : geocodeAddress key cache provider a with ⟨r, f, cache2⟩
    simp only [hga]
    rcases hrb : runBatch key provider rest cache2 with ⟨out, cacheF, logs⟩
    simp only [hrb]
    have ih2 := ih cache2
    rw [hrb] at ih2
    simp only at ih2
    match r with
    | Except.ok (some g) => simpa using ih2
    | Except.ok none => simpa using ih2
    | Except.error e => simpa using ih2

theorem runBatch_out_sub (key : String) (provider : String → FetchOutcome) :
    ∀ (l : List String) (cache : String → Option Coords),
    ((runBatch key provider l cache).out.map Prod.fst).Sublist l := by
  intro l
  induction l with
  | nil => intro cache; exact List.Sublist.refl []
  | cons a rest ih =>
    intro cache
    unfold runBatch
    rcases hga : geocodeAddress key cache provider a with ⟨r, f, cache2⟩
    simp only [hga]
    rcases hrb : runBatch key provider rest cache2 with ⟨out, cacheF, logs⟩
    simp only [hrb]
    have ih2 := ih cache2
    rw [hrb] at ih2
    simp only at ih2
    match r with
    | Except.ok (some g) => exact List.Sublist.cons₂ a ih2
    | Except.ok none => exact List.Sublist.cons a ih2
    | Except.error e => exact List.Sublist.cons a ih2

/-- C9, amended: the batch handler deduplicates by exact trimmed
string, not by normalized key.  The list it resolves is duplicate-free,
the resolution function is invoked exactly once per entry of that list,
and the response carries at most one entry per resolved address (so all
records sharing a trimmed address receive the same coordinates); two
raw strings that normalize to the same key but trim differently are
resolved separately (see the counterexample). -/
theorem c9_batch_dedup (key : String) (provider : String → FetchOutcome)
    (cache : String → Option Coords) (batch : List String) :
    (uniqList batch).Nodup ∧
    (runBatch key provider (uniqList batch) cache).logs.map Prod.fst = uniqList batch ∧
    ((runBatch key provider (uniqList batch) cache).out.map Prod.fst).Sublist
      (uniqList batch) :=
  ⟨uniqList_nodup batch,
   runBatch_logs key provider (uniqList batch) cache,
   runBatch_out_sub key provider (uniqList batch) cache⟩

/-- C10: the batch endpoint silently truncates its input: exactly the
first 400 distinct trimmed nonempty addresses are resolved, every later
address is neither resolved nor present in the response, and the
response status is always 200 with no indication of truncation. -/
theorem c10_truncation (key : String) (provider : String → FetchOutcome)
    (cache : String → Option Coords) (batch : List String) :
    (runBatch key provider (uniqList batch) cache).logs.map Prod.fst
      = (dedupKeepFirst ((batch.map trimString).filter (fun a => a != ""))).take 400 ∧
    (uniqList batch).length ≤ 400 ∧
    (handler key provider cache batch).1 = 200 ∧
    ((handler key provider cache batch).2.map Prod.fst).Sublist
      ((dedupKeepFirst ((batch.map trimString).filter (fun a => a != ""))).take 400) :=
  ⟨runBatch_logs key provider (uniqList batch) cache,
   List.length_take_le 400 _,
   rfl,
   runBatch_out_sub key provider (uniqList batch) cache⟩

theorem cacheUpdate_empty_key (cache : String → Option Coords) (k : String) (v : Coords)
    (hk : k ≠ "") (hwf : cache "" = none) : cacheUpdate cache k v "" = none := by
  unfold cacheUpdate
  rw [if_neg (fun h => hk h.symm)]
  exact hwf

theorem geocodeAddress_preserves_empty_key (key : String) (cache : String → Option Coords)
    (provider : String → FetchOutcome) (a : String) (hwf : cache "" = none) :
    (geocodeAddress key cache provider a).cache "" = none := by
  by_cases hne : normalizeAddress a = ""
  · rw [geocodeAddress_empty key cache provider a hne]
    exact hwf
  · cases hhit : cache (normalizeAddress a) with
    | some c =>
      rw [geocodeAddress_hit key cache provider a c hne hhit]
      exact hwf
    | none =>
      rcases hcore : geocodeCore key provider (normalizeAddress a) with ⟨r, l⟩
      match r, hcore with
      | Except.error e, hcore =>
        rw [geocodeAddress_miss_err key cache provider a e l hne hhit hcore]
        exact hwf
      | Except.ok none, hcore =>
        rw [geocodeAddress_miss_none key cache provider a l hne hhit hcore]
        exact hwf
      | Except.ok (some h), hcore =>
        rw [geocodeAddress_miss_some key cache provider a h l hne hhit hcore]
        exact cacheUpdate_empty_key cache (normalizeAddress a) h hne hwf
